import Mathlib

/-!
Shallow embedding of `packages/core/streams/ai-stream.ts`.

The pipeline turns an incoming byte stream of server-sent events (SSE) into
a stream of text tokens while firing lifecycle callbacks.  Byte chunks are
modelled as the `String`s they decode to (`TextDecoder` / `TextEncoder` are
platform primitives); the outbound byte stream is modelled explicitly via a
UTF-8 encoder into `List Nat`.  Stateful stream stages are modelled as
explicit state-passing functions, and the observable effects of the
callbacks transformer are modelled as a trace of actions.
-/

/-- A custom parser for AIStream data: `(data: string) => string | void`
(`AIStreamParser` in the source).  `none` models a `void` return. -/
abbrev AIStreamParser := String → Option String

/-- A parsed unit produced by the SSE parser: either a full event
(`ParsedEvent` of `eventsource-parser`, with its optional `event` name field
and its `data` payload) or a reconnection interval (`ReconnectInterval`). -/
inductive SSEvent where
  | event : Option String → String → SSEvent
  | reconnectInterval : Nat → SSEvent
deriving DecidableEq

/-- Modelled from the spec: the state of the SSE line-framing parser of the
external `eventsource-parser` dependency (only its callers live in this
repository).  Per the spec, the parser recognizes `event:`, `data:`,
blank-line event boundaries and `retry:` intervals.  `lineBuf` holds the
characters of the current incomplete line in reverse order; `eventName` and
`dataBuf` accumulate the fields of the event currently being framed. -/
structure EventSourceParserState where
  lineBuf : List Char
  eventName : Option String
  dataBuf : Option String
deriving DecidableEq

/-- The initial state of the SSE parser: empty buffer, no pending fields. -/
def initialParserState : EventSourceParserState :=
  { lineBuf := [], eventName := none, dataBuf := none }

/-- Modelled from the spec: an SSE field value has a single leading space
(the one following the colon) removed when present. -/
def stripSpace : List Char → List Char
  | ' ' :: rest => rest
  | l => l

/-- Interpret a list of decimal digit characters as a number (used for the
`retry:` field); `none` when the list is empty or holds a non-digit. -/
def charsToNatAux (acc : Nat) : List Char → Option Nat
  | [] => some acc
  | c :: rest =>
      if 48 ≤ c.toNat ∧ c.toNat ≤ 57 then charsToNatAux (acc * 10 + (c.toNat - 48)) rest
      else none

/-- Interpret a nonempty list of decimal digits as a number. -/
def charsToNat : List Char → Option Nat
  | [] => none
  | c :: rest => charsToNatAux 0 (c :: rest)

/-- Modelled from the spec: append one `data:` line to the data buffer;
multiple data lines of one event are joined with a newline. -/
def appendDataLine (old : Option String) (v : String) : String :=
  match old with
  | some d => d ++ "\n" ++ v
  | none => v

/-- Modelled from the spec: process one complete SSE line.  A blank line is
an event boundary: it dispatches an event when a `data:` field was seen and
resets the accumulated fields.  `data:`, `event:` and `retry:` fields are
recognized; any other line is ignored. -/
def processField (st : EventSourceParserState) (line : List Char) :
    EventSourceParserState × Option SSEvent :=
  if line = [] then
    match st.dataBuf with
    | some d =>
        ({ st with eventName := none, dataBuf := none },
         some (SSEvent.event st.eventName d))
    | none => ({ st with eventName := none }, none)
  else if line.take 5 = ['d', 'a', 't', 'a', ':'] then
    ({ st with
        dataBuf := some (appendDataLine st.dataBuf (String.mk (stripSpace (line.drop 5)))) },
     none)
  else if line.take 6 = ['e', 'v', 'e', 'n', 't', ':'] then
    ({ st with eventName := some (String.mk (stripSpace (line.drop 6))) }, none)
  else if line.take 6 = ['r', 'e', 't', 'r', 'y', ':'] then
    (st, (charsToNat (stripSpace (line.drop 6))).map SSEvent.reconnectInterval)
  else
    (st, none)

/-- Complete the current buffered line and process it as an SSE line. -/
def dispatchLine (st : EventSourceParserState) : EventSourceParserState × Option SSEvent :=
  processField { st with lineBuf := [] } st.lineBuf.reverse

/-- Modelled from the spec: feed decoded characters to the SSE parser,
returning the new parser state and the events framed from them, in order.
A newline completes the buffered line; any other character is buffered. -/
def feedChars (st : EventSourceParserState) : List Char → EventSourceParserState × List SSEvent
  | [] => (st, [])
  | c :: rest =>
      if c = '\n' then
        ((feedChars (dispatchLine st).1 rest).1,
         (dispatchLine st).2.toList ++ (feedChars (dispatchLine st).1 rest).2)
      else
        feedChars { st with lineBuf := c :: st.lineBuf } rest

/-- Feed a whole sequence of decoded chunks through the SSE parser,
collecting every framed event in order together with the final state. -/
def feedAll (st : EventSourceParserState) : List String → EventSourceParserState × List SSEvent
  | [] => (st, [])
  | c :: cs =>
      ((feedAll (feedChars st c.data).1 cs).1,
       (feedChars st c.data).2 ++ (feedAll (feedChars st c.data).1 cs).2)

/-- The termination test of `createEventStreamTransformer` (ai-stream.ts,
lines 46–53): an event with `data === '[DONE]'`, or one whose `event` field
is `'done'` (Replicate's convention).  A reconnect interval carries neither
a `data` nor an `event` field, so it never terminates. -/
def isTerminationEvent : SSEvent → Bool
  | SSEvent.event name data => data == "[DONE]" || name == some "done"
  | SSEvent.reconnectInterval _ => false

/-- `customParser ? customParser(event.data) : event.data`
(ai-stream.ts, lines 59–61). -/
def parsedMessageOf (customParser : Option AIStreamParser) (data : String) : Option String :=
  match customParser with
  | some p => p data
  | none => some data

/-- JavaScript truthiness of `parsedMessage : string | void`
(`if (parsedMessage)` at line 62): `undefined` and the empty string are
falsy, so only a present, non-empty string survives. -/
def truthyMessage : Option String → Option String
  | some s => if s = "" then none else some s
  | none => none

/-- The `onParse` callback of `createEventStreamTransformer`
(ai-stream.ts, lines 45–64), acting on one framed event.  The accumulator is
the pair of the terminated flag (`controller.terminate()` has been called)
and the sequence of enqueued token strings.  Once terminated, the
transform stream's readable side is closed and its writable side errored,
so later events produce no further output. -/
def handleParsedEvent (customParser : Option AIStreamParser)
    (acc : Bool × List String) (e : SSEvent) : Bool × List String :=
  if acc.1 then acc
  else if isTerminationEvent e then (true, acc.2)
  else
    match e with
    | SSEvent.event _ data =>
        match truthyMessage (parsedMessageOf customParser data) with
        | some parsedMessage => (false, acc.2 ++ [parsedMessage])
        | none => (false, acc.2)
    | SSEvent.reconnectInterval _ => (false, acc.2)

/-- State of the event-stream transform stage: the SSE parser state plus
whether `controller.terminate()` has been observed. -/
structure FramerState where
  parserState : EventSourceParserState
  terminated : Bool
deriving DecidableEq

/-- The `transform(chunk)` step of `createEventStreamTransformer`
(ai-stream.ts, lines 68–70): decode the chunk (chunks are modelled as the
strings they decode to) and feed it to the SSE parser, whose callback is
`handleParsedEvent`.  After termination the writable side of the transform
stream is errored, so a further chunk is never processed. -/
def transformChunk (customParser : Option AIStreamParser)
    (acc : FramerState × List String) (chunk : String) : FramerState × List String :=
  if acc.1.terminated then acc
  else
    ({ parserState := (feedChars acc.1.parserState chunk.data).1,
       terminated :=
         ((feedChars acc.1.parserState chunk.data).2.foldl
           (handleParsedEvent customParser) (false, acc.2)).1 },
     ((feedChars acc.1.parserState chunk.data).2.foldl
       (handleParsedEvent customParser) (false, acc.2)).2)

/-- `createEventStreamTransformer` (ai-stream.ts, lines 36–72), run on a
whole sequence of decoded chunks: returns the final stage state and the
token strings enqueued downstream, in order. -/
def createEventStreamTransformer (customParser : Option AIStreamParser)
    (chunks : List String) : FramerState × List String :=
  chunks.foldl (transformChunk customParser)
    ({ parserState := initialParserState, terminated := false }, [])

/-- Claim-side description of the Event Framer's per-event output: the
token-extraction hook's result on the event's data field (the raw data
string when no hook is supplied), with empty results dropped; a
reconnect interval yields no token. -/
def specTokenOfEvent (customParser : Option AIStreamParser) : SSEvent → Option String
  | SSEvent.event _ data => truthyMessage (parsedMessageOf customParser data)
  | SSEvent.reconnectInterval _ => none

/-- UTF-8 encoding of one character (what `TextEncoder` produces for it),
as a list of byte values. -/
def utf8EncodeCharBytes (c : Char) : List Nat :=
  if c.toNat < 128 then [c.toNat]
  else if c.toNat < 2048 then
    [192 + c.toNat / 64, 128 + c.toNat % 64]
  else if c.toNat < 65536 then
    [224 + c.toNat / 4096, 128 + c.toNat / 64 % 64, 128 + c.toNat % 64]
  else
    [240 + c.toNat / 262144, 128 + c.toNat / 4096 % 64,
     128 + c.toNat / 64 % 64, 128 + c.toNat % 64]

/-- UTF-8 encoding of a string (`textEncoder.encode`), as a byte list. -/
def utf8Encode (s : String) : List Nat :=
  s.data.flatMap utf8EncodeCharBytes

/-- Concatenation of a list of strings in order (the shape that
`aggregatedResponse` takes at flush time). -/
def concatAll : List String → String
  | [] => ""
  | s :: rest => s ++ concatAll rest

/-- One observable action of the callbacks transform stage: enqueueing an
encoded chunk downstream, or invoking one of the lifecycle callbacks. -/
inductive StreamAction where
  | actStart : StreamAction
  | actEnqueue : List Nat → StreamAction
  | actToken : String → StreamAction
  | actCompletion : String → StreamAction
deriving DecidableEq

/-- Which of the optional `AIStreamCallbacks` handlers are supplied
(`onStart`, `onToken`, `onCompletion`). -/
structure CallbackFlags where
  onStart : Bool
  onToken : Bool
  onCompletion : Bool
deriving DecidableEq

/-- The actions of one `transform(message, controller)` call of
`createCallbacksTransformer` (ai-stream.ts, lines 106–111): enqueue the
encoded message, then invoke `onToken` when supplied. -/
def messageActs (callbacks : CallbackFlags) (message : String) : List StreamAction :=
  [StreamAction.actEnqueue (utf8Encode message)] ++
    (if callbacks.onToken then [StreamAction.actToken message] else [])

/-- One `transform` step threading the transformer's state: the
accumulator is `(aggregatedResponse, actions so far)`.  The message is
appended to `aggregatedResponse` only when `onCompletion` is supplied
(line 110). -/
def transformMessage (callbacks : CallbackFlags)
    (acc : String × List StreamAction) (message : String) : String × List StreamAction :=
  ((if callbacks.onCompletion then acc.1 ++ message else acc.1),
   acc.2 ++ messageActs callbacks message)

/-- The `start`/`transform` phases of `createCallbacksTransformer` run over
a token sequence: `onStart` fires at stream initialization (lines 102–104),
then each token is transformed in arrival order. -/
def runTransform (callbacks : CallbackFlags) (tokens : List String) : String × List StreamAction :=
  tokens.foldl (transformMessage callbacks)
    ("", if callbacks.onStart then [StreamAction.actStart] else [])

/-- `createCallbacksTransformer` (ai-stream.ts, lines 94–117) run over a
token sequence: the full ordered action trace, ending with the `flush`
phase which invokes `onCompletion` with `aggregatedResponse`
(lines 113–115). -/
def createCallbacksTransformer (callbacks : CallbackFlags) (tokens : List String) :
    List StreamAction :=
  (runTransform callbacks tokens).2 ++
    (if callbacks.onCompletion then
      [StreamAction.actCompletion (runTransform callbacks tokens).1]
     else [])

/-- The byte payload of an enqueue action, when the action is one. -/
def byteActOf : StreamAction → Option (List Nat)
  | StreamAction.actEnqueue b => some b
  | _ => none

/-- The token argument of an `onToken` action, when the action is one. -/
def tokenOfAct : StreamAction → Option String
  | StreamAction.actToken t => some t
  | _ => none

/-- The argument of an `onCompletion` action, when the action is one. -/
def completionOfAct : StreamAction → Option String
  | StreamAction.actCompletion s => some s
  | _ => none

/-- Whether an action is an `onStart` invocation. -/
def isStartAct : StreamAction → Bool
  | StreamAction.actStart => true
  | _ => false

/-- The bytes of the output stream: the concatenation of all enqueued
chunks of an action trace, in order. -/
def enqueuedBytes (actions : List StreamAction) : List Nat :=
  (actions.filterMap byteActOf).flatten

/-- The HTTP-response-shaped input of `AIStream`: the `ok` flag and the
optional body, modelled as the list of decoded text chunks the body stream
yields (`none` models a `null` body). -/
structure SpecResponse where
  ok : Bool
  body : Option (List String)
deriving DecidableEq

/-- `reader.read()` on the error body (ai-stream.ts, line 174): the first
chunk when one exists (`done = false`) together with the chunks left
unread; `none` when the stream is already exhausted (`done = true`). -/
def errorBodyRead (chunks : List String) : Option String × List String :=
  match chunks with
  | [] => (none, [])
  | c :: rest => (some c, rest)

/-- The observable outcome of the stream returned by `AIStream`:
it errors before producing any data, it never settles (its `start` returns
without enqueueing, closing or erroring, so a read hangs), or it runs the
two-stage pipeline whose observable behavior is an action trace. -/
inductive AIStreamResult where
  | errorImmediately : String → AIStreamResult
  | neverSettles : AIStreamResult
  | success : List StreamAction → AIStreamResult
deriving DecidableEq

/-- `AIStream` (ai-stream.ts, lines 164–195).  On a non-ok response with a
body, one chunk is read: if one exists the stream errors with
`Response error: ` followed by its decoded text (lines 173–178); if the
body is already exhausted, `start` returns without erroring or closing, so
the stream never settles.  Without a body the stream errors with the fixed
`No response body` message (lines 182–186).  On an ok response the body
(or an empty stream when the body is null, line 190) is piped through the
event-stream transformer and the callbacks transformer. -/
def AIStream (response : SpecResponse) (customParser : Option AIStreamParser)
    (callbacks : CallbackFlags) : AIStreamResult :=
  if response.ok then
    AIStreamResult.success
      (createCallbacksTransformer callbacks
        (createEventStreamTransformer customParser (response.body.getD [])).2)
  else
    match response.body with
    | some chunks =>
        match (errorBodyRead chunks).1 with
        | some errorText => AIStreamResult.errorImmediately ("Response error: " ++ errorText)
        | none => AIStreamResult.neverSettles
    | none => AIStreamResult.errorImmediately "Response error: No response body"

/-- JavaScript's `text.trimStart()`: remove leading whitespace. -/
def jsTrimStart (text : String) : String :=
  String.mk (text.data.dropWhile Char.isWhitespace)

/-- One call of the closure returned by `trimStartOfStreamHelper`
(ai-stream.ts, lines 137–143), with the captured `isStreamStart` flag made
explicit: while the flag is set, the input is trimmed and the flag is
cleared only when the trimmed text is non-empty (`if (text) isStreamStart
= false`); afterwards the input passes through unchanged. -/
def trimStartOfStream (isStreamStart : Bool) (text : String) : Bool × String :=
  if isStreamStart then
    (if jsTrimStart text = "" then true else false, jsTrimStart text)
  else
    (isStreamStart, text)

/-- The closure returned by `trimStartOfStreamHelper` (ai-stream.ts,
lines 134–144) applied successively to a list of inputs, threading the
`isStreamStart` flag. -/
def trimStartOfStreamHelper : Bool → List String → List String
  | _, [] => []
  | isStreamStart, text :: rest =>
      (trimStartOfStream isStreamStart text).2 ::
        trimStartOfStreamHelper (trimStartOfStream isStreamStart text).1 rest

/-- The underlying asynchronous iterable handed to
`readableFromAsyncIterable`: the values its iterator yields and whether the
iterator has the optional early-termination `return` method. -/
structure AsyncIteratorModel (α : Type) where
  elems : List α
  hasReturn : Bool

/-- An interaction with the stream built by `readableFromAsyncIterable`:
a downstream pull or a cancellation carrying a reason. -/
inductive ReadableStreamOp where
  | pull : ReadableStreamOp
  | cancel : String → ReadableStreamOp
deriving DecidableEq

/-- Whether an operation is a cancellation. -/
def isCancelOp : ReadableStreamOp → Bool
  | ReadableStreamOp.cancel _ => true
  | ReadableStreamOp.pull => false

/-- Observable state of the adapter stream: the iterator's remaining
values, the values enqueued so far, whether the stream closed or was
cancelled, and the reasons passed to the iterator's `return` method. -/
structure AdapterState (α : Type) where
  remaining : List α
  enqueued : List α
  closed : Bool
  cancelled : Bool
  returnCalls : List String
deriving DecidableEq

/-- One step of the stream built by `readableFromAsyncIterable`
(ai-stream.ts, lines 216–229).  `pull` advances the iterator by one step,
closing on `done` and enqueueing the value otherwise (lines 219–223);
`cancel(reason)` invokes `it.return?.(reason)` — only when the method is
present (lines 225–227).  The stream machinery invokes no further
algorithms once the stream is cancelled. -/
def readableFromAsyncIterableStep {α : Type} (hasReturn : Bool)
    (st : AdapterState α) (op : ReadableStreamOp) : AdapterState α :=
  if st.cancelled then st
  else
    match op with
    | ReadableStreamOp.pull =>
        if st.closed then st
        else
          match st.remaining with
          | [] => { st with closed := true }
          | v :: rest => { st with remaining := rest, enqueued := st.enqueued ++ [v] }
    | ReadableStreamOp.cancel reason =>
        { st with cancelled := true,
                  returnCalls := st.returnCalls ++ (if hasReturn then [reason] else []) }

/-- `readableFromAsyncIterable` (ai-stream.ts, lines 216–229) driven by a
sequence of downstream interactions, starting from a fresh iterator. -/
def readableFromAsyncIterable {α : Type} (it : AsyncIteratorModel α)
    (ops : List ReadableStreamOp) : AdapterState α :=
  ops.foldl (readableFromAsyncIterableStep it.hasReturn)
    { remaining := it.elems, enqueued := [], closed := false, cancelled := false,
      returnCalls := [] }

/-- Instrumentation of the `onParse` callback (ai-stream.ts, lines 45–64)
recording the data strings passed to the custom parser: the termination
test at lines 46–53 runs before `customParser(event.data)` at lines 59–60,
so the accumulator's call list grows only for a non-termination event that
carries a data field. -/
def hookCallStep (acc : Bool × List String) (e : SSEvent) : Bool × List String :=
  if acc.1 then acc
  else if isTerminationEvent e then (true, acc.2)
  else
    match e with
    | SSEvent.event _ data => (false, acc.2 ++ [data])
    | SSEvent.reconnectInterval _ => (false, acc.2)

/-- The data strings the custom parser is invoked on while the framer
processes a sequence of events. -/
def hookCallsOn (events : List SSEvent) : List String :=
  (events.foldl hookCallStep (false, [])).2

theorem str_data_append (a b : String) : (a ++ b).data = a.data ++ b.data := by
  cases a; cases b; rfl

theorem str_empty_append (a : String) : "" ++ a = a := by
  cases a; rfl

theorem str_append_empty (a : String) : a ++ "" = a := by
  cases a with
  | mk l => exact congrArg String.mk (List.append_nil l)

theorem str_append_assoc (a b c : String) : a ++ b ++ c = a ++ (b ++ c) := by
  cases a with
  | mk la =>
    cases b with
    | mk lb =>
      cases c with
      | mk lc => exact congrArg String.mk (List.append_assoc la lb lc)

theorem utf8Encode_append (a b : String) :
    utf8Encode (a ++ b) = utf8Encode a ++ utf8Encode b := by
  unfold utf8Encode
  rw [str_data_append, List.flatMap_append]

theorem foldl_transformMessage (cb : CallbackFlags) :
    ∀ (tokens : List String) (a : String) (acts : List StreamAction),
      tokens.foldl (transformMessage cb) (a, acts)
        = ((if cb.onCompletion then a ++ concatAll tokens else a),
           acts ++ tokens.flatMap (messageActs cb)) := by
  intro tokens
  induction tokens with
  | nil =>
      intro a acts
      simp [concatAll, str_append_empty]
  | cons t ts ih =>
      intro a acts
      simp only [List.foldl_cons, transformMessage]
      rw [ih]
      cases hc : cb.onCompletion <;>
        simp [hc, concatAll, str_append_assoc, List.flatMap_cons, List.append_assoc]

theorem createCallbacksTransformer_eq (cb : CallbackFlags) (tokens : List String) :
    createCallbacksTransformer cb tokens
      = (if cb.onStart then [StreamAction.actStart] else [])
        ++ tokens.flatMap (messageActs cb)
        ++ (if cb.onCompletion then [StreamAction.actCompletion (concatAll tokens)] else []) := by
  unfold createCallbacksTransformer runTransform
  rw [foldl_transformMessage]
  cases hc : cb.onCompletion <;> simp [hc, str_empty_append, List.append_assoc]

theorem filter_isStart_flatMap (cb : CallbackFlags) :
    ∀ tokens : List String, ((tokens.flatMap (messageActs cb)).filter isStartAct) = [] := by
  intro tokens
  induction tokens with
  | nil => rfl
  | cons t ts ih =>
      cases h : cb.onToken <;>
        simp [List.flatMap_cons, List.filter_append, messageActs, h, isStartAct, ih]

theorem tokenOf_flatMap (cb : CallbackFlags) (h : cb.onToken = true) :
    ∀ tokens : List String, (tokens.flatMap (messageActs cb)).filterMap tokenOfAct = tokens := by
  intro tokens
  induction tokens with
  | nil => rfl
  | cons t ts ih =>
      simp [List.flatMap_cons, List.filterMap_append, messageActs, h, tokenOfAct, ih]

theorem completionOf_flatMap (cb : CallbackFlags) :
    ∀ tokens : List String, (tokens.flatMap (messageActs cb)).filterMap completionOfAct = [] := by
  intro tokens
  induction tokens with
  | nil => rfl
  | cons t ts ih =>
      cases h : cb.onToken <;>
        simp [List.flatMap_cons, List.filterMap_append, messageActs, h, completionOfAct, ih]

theorem byteOf_flatMap (cb : CallbackFlags) :
    ∀ tokens : List String,
      (tokens.flatMap (messageActs cb)).filterMap byteActOf = tokens.map utf8Encode := by
  intro tokens
  induction tokens with
  | nil => rfl
  | cons t ts ih =>
      cases h : cb.onToken <;>
        simp [List.flatMap_cons, List.filterMap_append, messageActs, h, byteActOf, ih]

theorem flatten_map_utf8 :
    ∀ tokens : List String, (tokens.map utf8Encode).flatten = utf8Encode (concatAll tokens) := by
  intro tokens
  induction tokens with
  | nil => rfl
  | cons t ts ih => simp [concatAll, utf8Encode_append, ih]

theorem enqueuedBytes_createCallbacksTransformer (cb : CallbackFlags) (tokens : List String) :
    enqueuedBytes (createCallbacksTransformer cb tokens) = utf8Encode (concatAll tokens) := by
  rw [createCallbacksTransformer_eq]
  unfold enqueuedBytes
  rw [List.filterMap_append, List.filterMap_append]
  cases hs : cb.onStart <;> cases hc : cb.onCompletion <;>
    simp [hs, hc, byteActOf, byteOf_flatMap, flatten_map_utf8]

theorem foldl_handleParsedEvent_term (p : Option AIStreamParser) :
    ∀ (events : List SSEvent) (out : List String),
      events.foldl (handleParsedEvent p) (true, out) = (true, out) := by
  intro events
  induction events with
  | nil => intro out; rfl
  | cons e es ih =>
      intro out
      simp only [List.foldl_cons]
      have hstep : handleParsedEvent p (true, out) e = (true, out) := by
        simp [handleParsedEvent]
      rw [hstep]
      exact ih out

theorem foldl_handleParsedEvent_noTerm (p : Option AIStreamParser) :
    ∀ (events : List SSEvent) (out : List String),
      (∀ e ∈ events, isTerminationEvent e = false) →
      events.foldl (handleParsedEvent p) (false, out)
        = (false, out ++ events.filterMap (specTokenOfEvent p)) := by
  intro events
  induction events with
  | nil => intro out _; simp
  | cons e es ih =>
      intro out h
      have he : isTerminationEvent e = false := h e (List.mem_cons_self e es)
      have hes : ∀ x ∈ es, isTerminationEvent x = false :=
        fun x hx => h x (List.mem_cons_of_mem e hx)
      simp only [List.foldl_cons]
      cases e with
      | event name data =>
          cases hm : truthyMessage (parsedMessageOf p data) with
          | some m =>
              have hstep : handleParsedEvent p (false, out) (SSEvent.event name data)
                  = (false, out ++ [m]) := by
                simp [handleParsedEvent, he, hm]
              rw [hstep, ih (out ++ [m]) hes]
              simp [specTokenOfEvent, hm, List.filterMap_cons, List.append_assoc]
          | none =>
              have hstep : handleParsedEvent p (false, out) (SSEvent.event name data)
                  = (false, out) := by
                simp [handleParsedEvent, he, hm]
              rw [hstep, ih out hes]
              simp [specTokenOfEvent, hm, List.filterMap_cons]
      | reconnectInterval v =>
          have hstep : handleParsedEvent p (false, out) (SSEvent.reconnectInterval v)
              = (false, out) := by
            simp [handleParsedEvent, isTerminationEvent]
          rw [hstep, ih out hes]
          simp [specTokenOfEvent, List.filterMap_cons]

theorem foldl_transformChunk_term (p : Option AIStreamParser) :
    ∀ (chunks : List String) (acc : FramerState × List String),
      acc.1.terminated = true →
      chunks.foldl (transformChunk p) acc = acc := by
  intro chunks
  induction chunks with
  | nil => intro acc _; rfl
  | cons c cs ih =>
      intro acc h
      simp only [List.foldl_cons]
      have hstep : transformChunk p acc c = acc := by
        simp [transformChunk, h]
      rw [hstep]
      exact ih acc h

theorem foldl_transformChunk_noTerm (p : Option AIStreamParser) :
    ∀ (chunks : List String) (st : EventSourceParserState) (out : List String),
      (∀ e ∈ (feedAll st chunks).2, isTerminationEvent e = false) →
      chunks.foldl (transformChunk p) ({ parserState := st, terminated := false }, out)
        = ({ parserState := (feedAll st chunks).1, terminated := false },
           out ++ (feedAll st chunks).2.filterMap (specTokenOfEvent p)) := by
  intro chunks
  induction chunks with
  | nil => intro st out _; simp [feedAll]
  | cons c cs ih =>
      intro st out h
      have h1 : ∀ e ∈ (feedChars st c.data).2, isTerminationEvent e = false := by
        intro e he
        apply h
        simp only [feedAll]
        exact List.mem_append_left _ he
      have h2 : ∀ e ∈ (feedAll (feedChars st c.data).1 cs).2, isTerminationEvent e = false := by
        intro e he
        apply h
        simp only [feedAll]
        exact List.mem_append_right _ he
      simp only [List.foldl_cons]
      have hstep : transformChunk p ({ parserState := st, terminated := false }, out) c
          = ({ parserState := (feedChars st c.data).1, terminated := false },
             out ++ (feedChars st c.data).2.filterMap (specTokenOfEvent p)) := by
        simp only [transformChunk]
        rw [foldl_handleParsedEvent_noTerm p _ out h1]
        simp
      rw [hstep, ih _ _ h2]
      simp only [feedAll, List.filterMap_append, List.append_assoc]

theorem foldl_adapterStep_cancelled {α : Type} (hr : Bool) :
    ∀ (ops : List ReadableStreamOp) (st : AdapterState α),
      st.cancelled = true →
      ops.foldl (readableFromAsyncIterableStep hr) st = st := by
  intro ops
  induction ops with
  | nil => intro st _; rfl
  | cons op ops ih =>
      intro st h
      simp only [List.foldl_cons]
      have hstep : readableFromAsyncIterableStep hr st op = st := by
        simp [readableFromAsyncIterableStep, h]
      rw [hstep]
      exact ih st h

theorem foldl_adapterStep_noCancel {α : Type} (hr : Bool) :
    ∀ (ops : List ReadableStreamOp) (st : AdapterState α),
      st.cancelled = false → (∀ op ∈ ops, isCancelOp op = false) →
      (ops.foldl (readableFromAsyncIterableStep hr) st).cancelled = false
      ∧ (ops.foldl (readableFromAsyncIterableStep hr) st).returnCalls = st.returnCalls := by
  intro ops
  induction ops with
  | nil => intro st hc _; exact ⟨hc, rfl⟩
  | cons op ops ih =>
      intro st hc hall
      have hop : isCancelOp op = false := hall op (List.mem_cons_self op ops)
      have hops : ∀ o ∈ ops, isCancelOp o = false :=
        fun o ho => hall o (List.mem_cons_of_mem op ho)
      cases op with
      | cancel r => simp [isCancelOp] at hop
      | pull =>
          have hstep :
              (readableFromAsyncIterableStep hr st ReadableStreamOp.pull).cancelled = false
              ∧ (readableFromAsyncIterableStep hr st ReadableStreamOp.pull).returnCalls
                  = st.returnCalls := by
            cases hcl : st.closed <;> cases hrem : st.remaining <;>
              simp [readableFromAsyncIterableStep, hc, hcl, hrem]
          simp only [List.foldl_cons]
          obtain ⟨h1, h2⟩ := ih _ hstep.1 hops
          exact ⟨h1, by rw [h2, hstep.2]⟩

theorem foldl_hookCallStep_mem :
    ∀ (events : List SSEvent) (acc : Bool × List String) (c : String),
      c ∈ (events.foldl hookCallStep acc).2 →
      c ∈ acc.2 ∨ ∃ name, SSEvent.event name c ∈ events
        ∧ isTerminationEvent (SSEvent.event name c) = false := by
  intro events
  induction events with
  | nil => intro acc c hc; exact Or.inl hc
  | cons e es ih =>
      intro acc c hc
      rw [List.foldl_cons] at hc
      rcases ih (hookCallStep acc e) c hc with hmem | ⟨name, hin, hnt⟩
      · by_cases h1 : acc.1 = true
        · have heq : hookCallStep acc e = acc := by simp [hookCallStep, h1]
          rw [heq] at hmem
          exact Or.inl hmem
        · have h1f : acc.1 = false := by simpa using h1
          by_cases ht : isTerminationEvent e = true
          · have heq : hookCallStep acc e = (true, acc.2) := by
              simp [hookCallStep, h1f, ht]
            rw [heq] at hmem
            exact Or.inl hmem
          · have htf : isTerminationEvent e = false := by simpa using ht
            cases e with
            | event name data =>
                have heq : hookCallStep acc (SSEvent.event name data)
                    = (false, acc.2 ++ [data]) := by
                  simp [hookCallStep, h1f, htf]
                rw [heq] at hmem
                simp only [List.mem_append, List.mem_singleton] at hmem
                rcases hmem with hmem | rfl
                · exact Or.inl hmem
                · exact Or.inr ⟨name, List.mem_cons_self _ _, htf⟩
            | reconnectInterval v =>
                have heq : hookCallStep acc (SSEvent.reconnectInterval v)
                    = (false, acc.2) := by
                  simp [hookCallStep, h1f, isTerminationEvent]
                rw [heq] at hmem
                exact Or.inl hmem
      · exact Or.inr ⟨name, List.mem_cons_of_mem e hin, hnt⟩

theorem hookFlag_agrees (p : Option AIStreamParser) :
    ∀ (events : List SSEvent) (b : Bool) (out1 out2 : List String),
      (events.foldl (handleParsedEvent p) (b, out1)).1
        = (events.foldl hookCallStep (b, out2)).1 := by
  intro events
  induction events with
  | nil => intro b out1 out2; rfl
  | cons e es ih =>
      intro b out1 out2
      simp only [List.foldl_cons]
      cases b with
      | true =>
          have e1 : handleParsedEvent p (true, out1) e = (true, out1) := by
            simp [handleParsedEvent]
          have e2 : hookCallStep (true, out2) e = (true, out2) := by
            simp [hookCallStep]
          rw [e1, e2]
          exact ih true out1 out2
      | false =>
          by_cases ht : isTerminationEvent e = true
          · have e1 : handleParsedEvent p (false, out1) e = (true, out1) := by
              simp [handleParsedEvent, ht]
            have e2 : hookCallStep (false, out2) e = (true, out2) := by
              simp [hookCallStep, ht]
            rw [e1, e2]
            exact ih true out1 out2
          · have htf : isTerminationEvent e = false := by simpa using ht
            cases e with
            | event name data =>
                cases hm : truthyMessage (parsedMessageOf p data) with
                | some m =>
                    have e1 : handleParsedEvent p (false, out1) (SSEvent.event name data)
                        = (false, out1 ++ [m]) := by
                      simp [handleParsedEvent, htf, hm]
                    have e2 : hookCallStep (false, out2) (SSEvent.event name data)
                        = (false, out2 ++ [data]) := by
                      simp [hookCallStep, htf]
                    rw [e1, e2]
                    exact ih false _ _
                | none =>
                    have e1 : handleParsedEvent p (false, out1) (SSEvent.event name data)
                        = (false, out1) := by
                      simp [handleParsedEvent, htf, hm]
                    have e2 : hookCallStep (false, out2) (SSEvent.event name data)
                        = (false, out2 ++ [data]) := by
                      simp [hookCallStep, htf]
                    rw [e1, e2]
                    exact ih false _ _
            | reconnectInterval v =>
                have e1 : handleParsedEvent p (false, out1) (SSEvent.reconnectInterval v)
                    = (false, out1) := by
                  simp [handleParsedEvent, isTerminationEvent]
                have e2 : hookCallStep (false, out2) (SSEvent.reconnectInterval v)
                    = (false, out2) := by
                  simp [hookCallStep, isTerminationEvent]
                rw [e1, e2]
                exact ih false _ _

theorem trimStartOfStreamHelper_pass :
    ∀ xs, trimStartOfStreamHelper false xs = xs := by
  intro xs
  induction xs with
  | nil => rfl
  | cons x rest ih => simp [trimStartOfStreamHelper, trimStartOfStream, ih]

/-- C1: for every well-formed SSE byte stream (modelled as the sequence of
decoded text chunks of the response body) containing no termination event,
the pipeline built by `AIStream` on an ok response produces a token
sequence equal, in order, to the non-empty results of the token-extraction
hook applied to each framed event's data field (the raw data string when
no hook is supplied, empty results dropped), and the output byte stream
equals the UTF-8 encoding of the concatenation of that token sequence. -/
theorem aiStream_c1 (customParser : Option AIStreamParser) (callbacks : CallbackFlags)
    (chunks : List String)
    (hwf : (feedAll initialParserState chunks).1 = initialParserState)
    (hnt : ∀ e ∈ (feedAll initialParserState chunks).2, isTerminationEvent e = false) :
    (createEventStreamTransformer customParser chunks).2
      = (feedAll initialParserState chunks).2.filterMap (specTokenOfEvent customParser)
    ∧ AIStream { ok := true, body := some chunks } customParser callbacks
      = AIStreamResult.success
          (createCallbacksTransformer callbacks
            ((feedAll initialParserState chunks).2.filterMap (specTokenOfEvent customParser)))
    ∧ enqueuedBytes (createCallbacksTransformer callbacks
        (createEventStreamTransformer customParser chunks).2)
      = utf8Encode (concatAll (createEventStreamTransformer customParser chunks).2) := by
  have htok : (createEventStreamTransformer customParser chunks).2
      = (feedAll initialParserState chunks).2.filterMap (specTokenOfEvent customParser) := by
    unfold createEventStreamTransformer
    rw [foldl_transformChunk_noTerm customParser chunks initialParserState [] hnt]
    simp
  refine ⟨htok, ?_, ?_⟩
  · simp only [AIStream, if_true, Option.getD_some]
    rw [htok]
  · exact enqueuedBytes_createCallbacksTransformer callbacks _

/-- Witness for C1: a concrete three-chunk stream whose second event spans
a chunk boundary, with no hook supplied. -/
theorem aiStream_c1_witness :
    ((feedAll initialParserState ["data: hello\n", "\nda", "ta: world\n\n"]).1
        = initialParserState)
    ∧ (∀ e ∈ (feedAll initialParserState ["data: hello\n", "\nda", "ta: world\n\n"]).2,
        isTerminationEvent e = false)
    ∧ (createEventStreamTransformer none ["data: hello\n", "\nda", "ta: world\n\n"]).2
        = (feedAll initialParserState
            ["data: hello\n", "\nda", "ta: world\n\n"]).2.filterMap (specTokenOfEvent none) :=
  ⟨by decide, by decide,
   (aiStream_c1 none ⟨true, true, true⟩ ["data: hello\n", "\nda", "ta: world\n\n"]
      (by decide) (by decide)).1⟩

/-- C2: for every non-empty input token sequence (with all three handlers
supplied), the callbacks transformer invokes `onStart` exactly once and
before the first enqueued byte (it is the very first action), invokes
`onToken` once per token in arrival order, and invokes `onCompletion`
exactly once and after the last enqueued byte (it is the very last
action), with an argument equal to the exact concatenation of all tokens
in arrival order. -/
theorem createCallbacksTransformer_c2 (tokens : List String) (callbacks : CallbackFlags)
    (hne : tokens ≠ [])
    (hs : callbacks.onStart = true) (ht : callbacks.onToken = true)
    (hc : callbacks.onCompletion = true) :
    (createCallbacksTransformer callbacks tokens).head? = some StreamAction.actStart
    ∧ ((createCallbacksTransformer callbacks tokens).filter isStartAct).length = 1
    ∧ (createCallbacksTransformer callbacks tokens).filterMap tokenOfAct = tokens
    ∧ (createCallbacksTransformer callbacks tokens).getLast?
        = some (StreamAction.actCompletion (concatAll tokens))
    ∧ (createCallbacksTransformer callbacks tokens).filterMap completionOfAct
        = [concatAll tokens] := by
  have h4 : (createCallbacksTransformer callbacks tokens).getLast?
      = some (StreamAction.actCompletion (concatAll tokens)) := by
    simp [createCallbacksTransformer_eq, hs, hc]
    rw [← List.cons_append]
    exact List.getLast?_concat _
  refine ⟨?_, ?_, ?_, h4, ?_⟩ <;>
    simp [createCallbacksTransformer_eq, hs, hc, List.filter_append, List.filterMap_append,
      filter_isStart_flatMap, tokenOf_flatMap callbacks ht, completionOf_flatMap,
      isStartAct, completionOfAct, tokenOfAct]

/-- Witness for C2 at the concrete token sequence `["a", "b"]` with all
three handlers supplied. -/
theorem createCallbacksTransformer_c2_witness :
    (["a", "b"] : List String) ≠ []
    ∧ (createCallbacksTransformer ⟨true, true, true⟩ ["a", "b"]).filterMap tokenOfAct
        = ["a", "b"] :=
  ⟨by decide,
   (createCallbacksTransformer_c2 ["a", "b"] ⟨true, true, true⟩ (by decide) rfl rfl rfl).2.2.1⟩

/-- C3: once the event framer observes a termination event, its state and
its output are unchanged by any later chunks fed to the transformer, and
events already framed from remaining buffered input produce no further
enqueues (the fold from a terminated state is the identity). -/
theorem createEventStreamTransformer_c3 (customParser : Option AIStreamParser)
    (chunks1 chunks2 : List String)
    (hterm : (createEventStreamTransformer customParser chunks1).1.terminated = true) :
    createEventStreamTransformer customParser (chunks1 ++ chunks2)
      = createEventStreamTransformer customParser chunks1
    ∧ (∀ (out : List String) (events : List SSEvent),
        events.foldl (handleParsedEvent customParser) (true, out) = (true, out)) := by
  constructor
  · unfold createEventStreamTransformer
    rw [List.foldl_append]
    exact foldl_transformChunk_term customParser chunks2 _ hterm
  · intro out events
    exact foldl_handleParsedEvent_term customParser events out

/-- Witness for C3: a terminating `[DONE]` chunk followed by a further
chunk, which leaves the framer's state and output untouched. -/
theorem createEventStreamTransformer_c3_witness :
    (createEventStreamTransformer none ["data: [DONE]\n\n"]).1.terminated = true
    ∧ createEventStreamTransformer none (["data: [DONE]\n\n"] ++ ["data: hi\n\n"])
        = createEventStreamTransformer none ["data: [DONE]\n\n"] :=
  ⟨by decide,
   (createEventStreamTransformer_c3 none ["data: [DONE]\n\n"] ["data: hi\n\n"]
      (by decide)).1⟩

/-- C4 counterexample: a non-2xx response whose body stream exists but
yields no content (`done` on the very first read) does not surface a
stream error — `controller.error` is only reached when the first read
yields a chunk, so the returned stream never settles. -/
theorem aiStream_c4_counterexample :
    AIStream { ok := false, body := some [] } none ⟨false, false, false⟩
      = AIStreamResult.neverSettles
    ∧ AIStream { ok := false, body := some [] } none ⟨false, false, false⟩
      ≠ AIStreamResult.errorImmediately ("Response error: " ++ "") :=
  ⟨by decide, by decide⟩

/-- C4 (amended): for a non-2xx response whose body yields a zero-length
first chunk, `AIStream` surfaces a stream error carrying an empty error
text after the fixed `Response error:` marker; when the body yields no
content at all, no error is surfaced and the stream never settles; in
both cases the returned stream never successfully produces data. -/
theorem aiStream_c4_amended (customParser : Option AIStreamParser)
    (callbacks : CallbackFlags) (rest : List String) :
    AIStream { ok := false, body := some ("" :: rest) } customParser callbacks
      = AIStreamResult.errorImmediately ("Response error: " ++ "")
    ∧ AIStream { ok := false, body := some [] } customParser callbacks
      = AIStreamResult.neverSettles
    ∧ (∀ trace, AIStream { ok := false, body := some ("" :: rest) } customParser callbacks
        ≠ AIStreamResult.success trace)
    ∧ (∀ trace, AIStream { ok := false, body := some [] } customParser callbacks
        ≠ AIStreamResult.success trace) := by
  refine ⟨?_, ?_, ?_, ?_⟩
  · simp [AIStream, errorBodyRead]
  · simp [AIStream, errorBodyRead]
  · intro trace
    simp [AIStream, errorBodyRead]
  · intro trace
    simp [AIStream, errorBodyRead]

/-- C5: for a response with `ok = false` and a body whose first chunk
decodes to `rate limited`, the stream returned by `AIStream` errors on its
first read with a message containing `Response error: rate limited`, and
exactly one chunk is read from the error body. -/
theorem aiStream_c5 (customParser : Option AIStreamParser) (callbacks : CallbackFlags)
    (rest : List String) :
    AIStream { ok := false, body := some ("rate limited" :: rest) } customParser callbacks
      = AIStreamResult.errorImmediately "Response error: rate limited"
    ∧ (∃ a b, "Response error: rate limited" = a ++ "Response error: rate limited" ++ b)
    ∧ ("rate limited" :: rest).length - (errorBodyRead ("rate limited" :: rest)).2.length = 1 := by
  refine ⟨?_, ?_, ?_⟩
  · have happ : ("Response error: " ++ "rate limited" : String)
        = "Response error: rate limited" := by decide
    simp [AIStream, errorBodyRead, happ]
  · exact ⟨"", "", by decide⟩
  · simp only [errorBodyRead, List.length_cons]
    omega

/-- C6: the function returned by `trimStartOfStreamHelper` strips leading
whitespace only until the first call producing a non-empty residue, after
which all subsequent inputs pass through unmodified; applied to
`["   a", "   b"]` it yields `["a", "   b"]`, and applied to
`["   ", "  c"]` it yields `["", "c"]` (trimming stays active across an
all-whitespace first chunk). -/
theorem trimStartOfStreamHelper_c6 :
    (∀ xs, trimStartOfStreamHelper false xs = xs)
    ∧ trimStartOfStreamHelper true ["   a", "   b"] = ["a", "   b"]
    ∧ trimStartOfStreamHelper true ["   ", "  c"] = ["", "c"]
    ∧ (∀ x xs, jsTrimStart x ≠ "" →
        trimStartOfStreamHelper true (x :: xs) = jsTrimStart x :: xs) := by
  refine ⟨trimStartOfStreamHelper_pass, by decide, by decide, ?_⟩
  intro x xs hx
  simp [trimStartOfStreamHelper, trimStartOfStream, hx, trimStartOfStreamHelper_pass]

/-- Witness for the conditional part of C6 at a concrete first chunk with
a non-empty trimmed residue. -/
theorem trimStartOfStreamHelper_c6_witness :
    jsTrimStart "  hi" ≠ ""
    ∧ trimStartOfStreamHelper true ["  hi", "  there"] = jsTrimStart "  hi" :: ["  there"] :=
  ⟨by decide, trimStartOfStreamHelper_c6.2.2.2 "  hi" ["  there"] (by decide)⟩

/-- C7: for an ok response with a null body, `AIStream` substitutes the
empty stream, so the pipeline produces zero tokens: nothing is ever
enqueued (the returned stream closes with zero elements) and, when
`onCompletion` is supplied, it is invoked exactly once with the empty
string. -/
theorem aiStream_c7 (customParser : Option AIStreamParser) (callbacks : CallbackFlags)
    (hc : callbacks.onCompletion = true) :
    AIStream { ok := true, body := none } customParser callbacks
      = AIStreamResult.success (createCallbacksTransformer callbacks [])
    ∧ (createCallbacksTransformer callbacks []).filterMap byteActOf = []
    ∧ enqueuedBytes (createCallbacksTransformer callbacks []) = []
    ∧ (createCallbacksTransformer callbacks []).filterMap completionOfAct = [""] := by
  refine ⟨rfl, ?_, ?_, ?_⟩
  · cases hs : callbacks.onStart <;>
      simp [createCallbacksTransformer_eq, hc, hs, List.filterMap_append, byteActOf]
  · have h := enqueuedBytes_createCallbacksTransformer callbacks []
    rw [h]
    decide
  · cases hs : callbacks.onStart <;>
      simp [createCallbacksTransformer_eq, hc, hs, List.filterMap_append, completionOfAct,
        concatAll]

/-- Witness for C7 with a Callback Set supplying only `onCompletion`. -/
theorem aiStream_c7_witness :
    ((⟨false, false, true⟩ : CallbackFlags).onCompletion = true)
    ∧ AIStream { ok := true, body := none } none ⟨false, false, true⟩
        = AIStreamResult.success (createCallbacksTransformer ⟨false, false, true⟩ []) :=
  ⟨rfl, (aiStream_c7 none ⟨false, false, true⟩ rfl).1⟩

theorem cancelStep_returnCalls {α : Type} (st : AdapterState α) (r : String)
    (hc : st.cancelled = false) :
    readableFromAsyncIterableStep true st (ReadableStreamOp.cancel r)
      = { st with cancelled := true, returnCalls := st.returnCalls ++ [r] } := by
  simp [readableFromAsyncIterableStep, hc]

/-- C8: cancelling the stream built by `readableFromAsyncIterable` with a
reason — after any sequence of pulls and whatever interactions follow —
causes the underlying iterator's early-termination `return` method (when
present) to be invoked with that reason exactly once. -/
theorem readableFromAsyncIterable_c8 {α : Type} (it : AsyncIteratorModel α)
    (ops1 : List ReadableStreamOp) (reason : String) (ops2 : List ReadableStreamOp)
    (hret : it.hasReturn = true)
    (hnc : ∀ op ∈ ops1, isCancelOp op = false) :
    (readableFromAsyncIterable it
        (ops1 ++ ReadableStreamOp.cancel reason :: ops2)).returnCalls = [reason] := by
  unfold readableFromAsyncIterable
  rw [hret, List.foldl_append]
  obtain ⟨hc1, hr1⟩ := foldl_adapterStep_noCancel true ops1
    { remaining := it.elems, enqueued := [], closed := false, cancelled := false,
      returnCalls := [] } rfl hnc
  rw [List.foldl_cons, cancelStep_returnCalls _ reason hc1]
  rw [foldl_adapterStep_cancelled true ops2 _ rfl]
  simp [hr1]

/-- Witness for C8: one pull, then a cancellation, then a further pull. -/
theorem readableFromAsyncIterable_c8_witness :
    ((⟨[5], true⟩ : AsyncIteratorModel Nat).hasReturn = true)
    ∧ (∀ op ∈ [ReadableStreamOp.pull], isCancelOp op = false)
    ∧ (readableFromAsyncIterable (⟨[5], true⟩ : AsyncIteratorModel Nat)
        ([ReadableStreamOp.pull] ++
          ReadableStreamOp.cancel "user cancelled" :: [ReadableStreamOp.pull])).returnCalls
      = ["user cancelled"] :=
  ⟨rfl, by decide,
   readableFromAsyncIterable_c8 ⟨[5], true⟩ [ReadableStreamOp.pull] "user cancelled"
     [ReadableStreamOp.pull] rfl (by decide)⟩

/-- C9: the custom token-extraction hook is never invoked on a termination
event — the termination check runs before the hook is applied — so every
data string passed to the hook comes from a non-termination event of the
input, and the hook never observes the `[DONE]` sentinel. -/
theorem hookCalls_c9 (events : List SSEvent) (c : String)
    (hc : c ∈ hookCallsOn events) :
    c ≠ "[DONE]"
    ∧ ∃ name, SSEvent.event name c ∈ events
        ∧ isTerminationEvent (SSEvent.event name c) = false := by
  simp only [hookCallsOn] at hc
  rcases foldl_hookCallStep_mem events (false, []) c hc with hmem | ⟨name, hin, hnt⟩
  · simp at hmem
  · refine ⟨?_, name, hin, hnt⟩
    intro hdone
    rw [hdone] at hnt
    simp [isTerminationEvent] at hnt

/-- Witness for C9 at a single non-termination data event. -/
theorem hookCalls_c9_witness :
    "hi" ∈ hookCallsOn [SSEvent.event none "hi"]
    ∧ ("hi" ≠ "[DONE]"
        ∧ ∃ name, SSEvent.event name "hi" ∈ [SSEvent.event none "hi"]
            ∧ isTerminationEvent (SSEvent.event name "hi") = false) :=
  ⟨by decide, hookCalls_c9 [SSEvent.event none "hi"] "hi" (by decide)⟩

/-- C10: when `onStart` is supplied it is invoked exactly once even when
the input produces zero tokens — it fires at stream initialization, not on
the first token; in particular on an ok response with a null body the
pipeline still fires it exactly once. -/
theorem onStart_c10 (callbacks : CallbackFlags) (tokens : List String)
    (customParser : Option AIStreamParser)
    (hs : callbacks.onStart = true) :
    ((createCallbacksTransformer callbacks tokens).filter isStartAct).length = 1
    ∧ AIStream { ok := true, body := none } customParser callbacks
        = AIStreamResult.success (createCallbacksTransformer callbacks [])
    ∧ ((createCallbacksTransformer callbacks []).filter isStartAct).length = 1 := by
  have hcount : ∀ ts : List String,
      ((createCallbacksTransformer callbacks ts).filter isStartAct).length = 1 := by
    intro ts
    cases hcb : callbacks.onCompletion <;>
      simp [createCallbacksTransformer_eq, hs, hcb, List.filter_append,
        filter_isStart_flatMap, isStartAct]
  exact ⟨hcount tokens, rfl, hcount []⟩

/-- Witness for C10 with only `onStart` supplied and zero tokens. -/
theorem onStart_c10_witness :
    ((⟨true, false, false⟩ : CallbackFlags).onStart = true)
    ∧ ((createCallbacksTransformer ⟨true, false, false⟩ []).filter isStartAct).length = 1 :=
  ⟨rfl, (onStart_c10 ⟨true, false, false⟩ [] none rfl).2.2⟩
